import Mathlib

/-!
# Verification of the tp1_indexation_web index builder and search engine

Shallow embedding of `src/index/indexer.py`, `src/index/product.py` and
`src/search_engine/search_engine.py`.

Modelling conventions:
* Python numbers (ints and floats) are modelled as exact rationals `ℚ`;
  `math.log` is an external C-library function and is modelled as an
  abstract parameter `log : ℚ → ℚ` threaded through the scoring code.
* Python `dict`s are modelled as association lists (`List (String × β)`)
  with unique keys; `dict[k]` / `k in dict` become `alookup` /
  `(alookup k l).isSome`.  Python `set`s of document ids are modelled as
  `Finset String`.
* Fallible Python code (`KeyError`, `TypeError` on `x in None`,
  `ValueError` raised by the source, `ZeroDivisionError`) is modelled with
  `Except String`.
* The stopword list of `Indexer` (read from `data/stopwords-en.txt`) and
  the NLTK stopword list of `SearchEngine` are external data; both are
  parameters of the model (fields of the engine state).
-/

namespace Tp1

/-- Association-list lookup with Python-`dict` semantics (keys unique,
first match wins). -/
def alookup {β : Type} (k : String) : List (String × β) → Option β
  | [] => none
  | (k', v) :: rest => if k = k' then some v else alookup k rest

@[simp] theorem alookup_nil {β : Type} (k : String) : alookup (β := β) k [] = none := rfl

@[simp] theorem alookup_cons {β : Type} (k k' : String) (v : β) (rest : List (String × β)) :
    alookup k ((k', v) :: rest) = if k = k' then some v else alookup k rest := rfl

/-- The `string.punctuation` character set of the Python standard library. -/
def punctuationChars : List Char :=
  ['!', '\x22', '#', '$', '%', '&', '\x27', '(', ')', '*', '+', ',', '-', '.', '/',
   ':', ';', '<', '=', '>', '?', '@', '[', '\x5c', ']', '^', '_', '\x60',
   '\x7b', '|', '\x7d', '~']

/-- The whitespace characters Python's `str.split()` splits on. -/
def isPySpace (c : Char) : Bool :=
  c = ' ' || c = '\t' || c = '\n' || c = '\x0d' || c = '\x0b' || c = '\x0c'

/-- Python `str.lower()` (ASCII case folding suffices for this corpus). -/
def pyLower (s : String) : String := ⟨s.data.map Char.toLower⟩

/-- Helper for `pySplit`: accumulates the current word (reversed). -/
def pySplitAux : List Char → List Char → List String
  | [], [] => []
  | [], cur => [⟨cur.reverse⟩]
  | c :: cs, cur =>
    if isPySpace c then
      match cur with
      | [] => pySplitAux cs []
      | _ :: _ => (⟨cur.reverse⟩ : String) :: pySplitAux cs []
    else pySplitAux cs (c :: cur)

/-- Python `str.split()` with no argument: split on runs of whitespace,
dropping empty fields. -/
def pySplit (s : String) : List String := pySplitAux s.data []

/-- The raw token stream of `Indexer.tokenize` / `tokenize_with_positions`
before stopword filtering: lower-case, strip every `string.punctuation`
character, split on whitespace (`indexer.py` lines 163-166 / 180-183). -/
def rawTokens (text : String) : List String :=
  pySplit ⟨(text.data.map Char.toLower).filter (fun c => ¬ c ∈ punctuationChars)⟩

/-- The method `Indexer.tokenize` (`indexer.py` lines 153-168); `stop` is the
`Indexer.STOPWORDS` set loaded from `data/stopwords-en.txt`. -/
def tokenize (stop : List String) (text : String) : List String :=
  (rawTokens text).filter (fun token => ¬ token ∈ stop)

/-- The method `Indexer.tokenize_with_positions` (`indexer.py` lines 170-192):
enumerate the raw token stream, then drop stopword pairs. -/
def tokenize_with_positions (stop : List String) (text : String) : List (Nat × String) :=
  ((rawTokens text).enum).filter (fun p => ¬ p.2 ∈ stop)

theorem pairwise_fst_lt_enum {α : Type} (l : List α) :
    (l.enum).Pairwise (fun p q => p.1 < q.1) := by
  rw [List.pairwise_iff_getElem]
  intro i j hi hj hij
  simp only [List.getElem_enum]
  exact hij

theorem tokenize_with_positions_pairwise (stop : List String) (text : String) :
    (tokenize_with_positions stop text).Pairwise (fun p q => p.1 < q.1) :=
  (pairwise_fst_lt_enum (rawTokens text)).sublist (List.filter_sublist _)

/-- C6: For every input text, `tokenize_with_positions` returns exactly the
`(position, term)` pairs in which `position` is the zero-based index of the
term in the raw token stream (lower-cased, punctuation-stripped,
whitespace-split, before stopword removal); stopword tokens are omitted and
the positions of surviving tokens are not renumbered (they stay the raw
offsets, in strictly increasing order). -/
theorem tokenize_with_positions_exactly_raw_offsets (stop : List String) (text : String) :
    (∀ (i : Nat) (t : String),
      (i, t) ∈ tokenize_with_positions stop text ↔
        ((rawTokens text)[i]? = some t ∧ ¬ t ∈ stop)) ∧
    (tokenize_with_positions stop text).Pairwise (fun p q => p.1 < q.1) := by
  refine ⟨?_, tokenize_with_positions_pairwise stop text⟩
  intro i t
  simp [tokenize_with_positions, List.mem_filter, List.mk_mem_enum_iff_getElem?]

/-! ## Data model (`src/index/product.py`) -/

/-- A JSON value stored in a feature mapping: the indexer only distinguishes
strings from non-strings (`isinstance(value, str)`). -/
inductive FeatVal : Type
  | str (s : String)
  | other
deriving DecidableEq

/-- One review record `{rating: number, date: string}`; `rating` may be
absent (`review.get("rating", 0)` / `.get("rating", None)`). -/
structure Review : Type where
  rating : Option ℚ
  date : String
deriving DecidableEq

/-- The class `Product` (`product.py` lines 17-24); `id` is the document URL.
The `product_rewiews` field keeps the source's spelling. -/
structure Product : Type where
  id : String
  title : String
  description : String
  product_features : List (String × FeatVal)
  product_rewiews : List Review
deriving DecidableEq

/-- A value of a review-index record: a number or JSON `null`. -/
inductive RVal : Type
  | num (q : ℚ)
  | null
deriving DecidableEq

/-! ## Review index (`indexer.py` lines 194-226) -/

/-- Number of days of a month, as validated by `datetime.strptime`. -/
def daysInMonth (y m : Nat) : Nat :=
  if m = 2 then
    if y % 4 = 0 ∧ (y % 100 ≠ 0 ∨ y % 400 = 0) then 29 else 28
  else if m = 4 ∨ m = 6 ∨ m = 9 ∨ m = 11 then 30
  else 31

/-- Python `datetime.strptime(s, "%Y-%m-%d")`, encoded as `y*10000 + m*100 + d`
(an order-preserving encoding of the calendar date); `none` models the
`ValueError` raised on malformed input. -/
def parseDate (s : String) : Option Nat :=
  match s.splitOn "-" with
  | [y, m, d] =>
    match y.toNat?, m.toNat?, d.toNat? with
    | some yn, some mn, some dn =>
      if y.length ≤ 4 ∧ m.length ≤ 2 ∧ d.length ≤ 2 ∧
         1 ≤ yn ∧ yn ≤ 9999 ∧ 1 ≤ mn ∧ mn ≤ 12 ∧ 1 ≤ dn ∧ dn ≤ daysInMonth yn mn
      then some (yn * 10000 + mn * 100 + dn) else none
    | _, _, _ => none
  | _ => none

/-- The sort key of `sorted(reviews, key=lambda x: datetime.strptime(...))`;
only evaluated under the guard that every date parses. -/
def dateKey (r : Review) : Nat := (parseDate r.date).getD 0

/-- The review-statistics record built for one product
(`indexer.py` lines 207-225).  Python's `sorted` is a stable sort,
modelled by `List.insertionSort` (which is stable for the `≤`-by-key
relation).  A date that fails to parse raises `ValueError`. -/
def reviewStats (reviews : List Review) : Except String (List (String × RVal)) :=
  match reviews with
  | [] =>
    .ok [("total_reviews", .num 0), ("average_rating", .null), ("last_rating", .null)]
  | _ :: _ =>
    if reviews.all (fun r => (parseDate r.date).isSome) then
      let total : ℚ := reviews.length
      let avg : ℚ := ((reviews.map (fun r => r.rating.getD 0)).sum) / total
      let sorted := reviews.insertionSort (fun r1 r2 => dateKey r1 ≤ dateKey r2)
      let lastRev := sorted.getLast?.getD { rating := none, date := "" }
      .ok [("total_reviews", .num total), ("average_rating", .num avg),
           ("last_rating", match lastRev.rating with | some q => .num q | none => .null)]
    else .error "ValueError"

/-- The method `Indexer.build_reviews_index` (`indexer.py` lines 194-226): one record
per product, keyed by product id. -/
def build_reviews_index : List Product → Except String (List (String × List (String × RVal)))
  | [] => .ok []
  | p :: rest =>
    match reviewStats p.product_rewiews with
    | .error e => .error e
    | .ok st =>
      match build_reviews_index rest with
      | .error e => .error e
      | .ok idx => .ok ((p.id, st) :: idx)

/-! ## Positional indexes (`indexer.py` lines 253-293) -/

/-- One step of the positional-index construction: `if pos not in
index[token][product_id]: index[token][product_id].append(pos)`.
The nested `defaultdict` is modelled extensionally as a function with
default value `[]`. -/
def addPos (f : String → String → List Nat) (token doc : String) (pos : Nat) :
    String → String → List Nat :=
  fun t d =>
    if t = token ∧ d = doc then
      (if pos ∈ f token doc then f token doc else f token doc ++ [pos])
    else f t d

/-- Index all `(pos, token)` pairs of one field of one product. -/
def indexFieldPositions (stop : List String) (f : String → String → List Nat)
    (doc_id text : String) : String → String → List Nat :=
  (tokenize_with_positions stop text).foldl (fun g pt => addPos g pt.2 doc_id pt.1) f

/-- The method `Indexer.build_title_positional_index` (`indexer.py` lines 253-272). -/
def build_title_positional_index (stop : List String) (products : List Product) :
    String → String → List Nat :=
  products.foldl (fun f p => indexFieldPositions stop f p.id p.title) (fun _ _ => [])

/-- The method `Indexer.build_desc_positional_index` (`indexer.py` lines 274-293). -/
def build_desc_positional_index (stop : List String) (products : List Product) :
    String → String → List Nat :=
  products.foldl (fun f p => indexFieldPositions stop f p.id p.description) (fun _ _ => [])

/-! ## Search-engine state (`search_engine.py` lines 79-93, 365-427)

The seven index attributes are `None` after `__init__` and are only set by
`load_indexes` when the corresponding JSON file exists, so each is an
`Option`.  The JSON files are external artifacts; their parsed contents are
fields of the state.  Positions in a loaded positional index are JSON
numbers, modelled as `ℚ`. -/

/-- A loaded positional index: `term → doc id → list of positions`. -/
abbrev PosIndex := List (String × List (String × List ℚ))

/-- A loaded term index: `term → list of doc ids`. -/
abbrev DocIndex := List (String × List String)

/-- A loaded reviews index: `doc id → record`. -/
abbrev RevIndex := List (String × List (String × RVal))

/-- The mutable state of a `SearchEngine` instance. `STOPWORDS` is the NLTK
English stopword list (line 81); `indexer_STOPWORDS` is the stopword file
loaded by the `Indexer` class (used by `tokenize`). -/
structure SearchEngine : Type where
  STOPWORDS : List String
  indexer_STOPWORDS : List String
  products_list : List Product
  title_index : Option PosIndex
  description_index : Option PosIndex
  origin_index : Option DocIndex
  reviews_index : Option RevIndex
  brand_index : Option DocIndex
  domain_index : Option DocIndex
  origin_synonyms : Option (List (String × List String))

/-- Python `token in idx` where `idx` may be `None`: `x in None` raises
`TypeError: argument of type 'NoneType' is not iterable`. -/
def pyIn {β : Type} (k : String) (idx : Option (List (String × β))) : Except String Bool :=
  match idx with
  | none => .error "TypeError"
  | some l => .ok (alookup k l).isSome

/-- Modelled from the spec: `Indexer.get_product_by_id` is called
throughout `search_engine.py` but is absent from the sources; per §2 the
Document Store holds "parsed product documents, each with a stable
identifier", so it is modelled as lookup of the product whose `id` equals
the argument. -/
def get_product_by_id (st : SearchEngine) (doc_id : String) : Except String Product :=
  match st.products_list.find? (fun p => p.id = doc_id) with
  | some p => .ok p
  | none => .error "KeyError"

/-! ## Query tokenization with synonyms (`search_engine.py` lines 429-470) -/

/-- Helper for `pySet`: drops elements already seen. -/
def pySetAux : List String → List String → List String
  | [], _ => []
  | x :: xs, seen => if x ∈ seen then pySetAux xs seen else x :: pySetAux xs (x :: seen)

/-- Python `list(set(tokens))`; a set's iteration order is
implementation-defined, modelled deterministically as first-occurrence
order.  (All claims below only depend on cases where the order is forced,
e.g. singletons.) -/
def pySet (l : List String) : List String := pySetAux l []

/-- The method `SearchEngine.get_token_synonyms` (lines 429-452).  The synonyms
mapping may be `None` (file missing), in which case `token in
synonyms_mapping` raises `TypeError`. -/
def get_token_synonyms (st : SearchEngine) (token : String) : Except String (List String) :=
  match st.origin_synonyms with
  | none => .error "TypeError"
  | some m =>
    let token := pyLower token
    match alookup token m with
    | some syns => .ok (pySet (token :: syns.map pyLower))
    | none =>
      match m.find? (fun g => token ∈ g.2) with
      | some g => .ok (pySet ((token :: g.2) ++ [g.1]))
      | none => .ok (pySet [token])

/-- The method `SearchEngine.get_query_tokens_with_synonyms` (lines 454-470). -/
def get_query_tokens_with_synonyms (st : SearchEngine) (query : String) :
    Except String (List String) :=
  (tokenize st.indexer_STOPWORDS query).foldlM
    (fun acc t => do
      let s ← get_token_synonyms st t
      pure (acc ++ s))
    []

/-! ## Document filters (`search_engine.py` lines 472-571)

The loop bodies iterate `token in index` / `index[token]`, so each branch
is parameterized by the function turning an index value into the iterable
of document ids that `set.update` consumes (for a positional index,
iterating the inner dict yields its keys). -/

/-- The loop of `filter_partial_match` (lines 503-506); `idx = None`
raises `TypeError` at the first `token in index` test. -/
def partialAux {β : Type} (idx : Option (List (String × β))) (docsOf : β → List String) :
    List String → Finset String → Except String (Finset String)
  | [], acc => .ok acc
  | t :: ts, acc =>
    match idx with
    | none => .error "TypeError"
    | some l =>
      match alookup t l with
      | some v => partialAux idx docsOf ts (acc ∪ (docsOf v).toFinset)
      | none => partialAux idx docsOf ts acc

/-- The non-origin loop of `filter_total_match` (lines 560-571):
stopwords (from the NLTK `SearchEngine.STOPWORDS` list) are skipped, a
token absent from the index short-circuits to the empty set, and
`matching_docs` starts as `None`. -/
def totalAux {β : Type} (stop : List String) (idx : Option (List (String × β)))
    (docsOf : β → List String) :
    List String → Option (Finset String) → Except String (Finset String)
  | [], acc => .ok (acc.getD ∅)
  | t :: ts, acc =>
    if t ∈ stop then totalAux stop idx docsOf ts acc
    else
      match idx with
      | none => .error "TypeError"
      | some l =>
        match alookup t l with
        | some v =>
          totalAux stop idx docsOf ts
            (some (match acc with
                   | none => (docsOf v).toFinset
                   | some m => m ∩ (docsOf v).toFinset))
        | none => .ok ∅

/-- The body of the inner loop of the origin branch of
`filter_total_match` (lines 546-553): try the slice `query_tokens[i:j]`
joined with spaces as a phrase key; on a hit, union it into `found_origin`
(which starts as `None`). -/
def originStep (l : DocIndex) (query_tokens : List String)
    (found : Option (Finset String)) (i j : Nat) : Option (Finset String) :=
  let phrase := " ".intercalate ((query_tokens.drop i).take (j - i))
  match alookup phrase l with
  | some docs =>
    match found with
    | none => some docs.toFinset
    | some m => some (m ∪ docs.toFinset)
  | none => found

/-- The inner loop `for j in range(i + 1, len(query_tokens) + 1)`. -/
def originInner (l : DocIndex) (query_tokens : List String) (i : Nat)
    (found : Option (Finset String)) : Option (Finset String) :=
  (List.range' (i + 1) (query_tokens.length - i)).foldl
    (fun fd j => originStep l query_tokens fd i j) found

/-- The origin branch of `filter_total_match` (lines 542-558): try every
contiguous slice `query_tokens[i:j]` joined with spaces as a phrase key and
union the hits; `found_origin` starts as `None` and `None` at the end
yields the empty set. -/
def originPhraseLoop (l : DocIndex) (query_tokens : List String) : Option (Finset String) :=
  (List.range query_tokens.length).foldl
    (fun fd i => originInner l query_tokens i fd) none

/-- The method `SearchEngine.filter_partial_match` (lines 472-506). -/
def filter_partial_match (st : SearchEngine) (query_tokens : List String)
    (index_name : String) : Except String (Finset String) :=
  if index_name = "title" then
    partialAux st.title_index (fun v => v.map Prod.fst) query_tokens ∅
  else if index_name = "description" then
    partialAux st.description_index (fun v => v.map Prod.fst) query_tokens ∅
  else if index_name = "origin" then
    partialAux st.origin_index id query_tokens ∅
  else if index_name = "reviews" then
    partialAux st.reviews_index (fun v => v.map Prod.fst) query_tokens ∅
  else if index_name = "brand" then
    partialAux st.brand_index id query_tokens ∅
  else if index_name = "domain" then
    partialAux st.domain_index id query_tokens ∅
  else .error "ValueError"

/-- The method `SearchEngine.filter_total_match` (lines 508-571). -/
def filter_total_match (st : SearchEngine) (query_tokens : List String)
    (index_name : String) : Except String (Finset String) :=
  if index_name = "title" then
    totalAux st.STOPWORDS st.title_index (fun v => v.map Prod.fst) query_tokens none
  else if index_name = "description" then
    totalAux st.STOPWORDS st.description_index (fun v => v.map Prod.fst) query_tokens none
  else if index_name = "origin" then
    match st.origin_index with
    | none =>
      if query_tokens.isEmpty then .ok ∅ else .error "TypeError"
    | some l =>
      match originPhraseLoop l query_tokens with
      | some found => .ok found
      | none => .ok ∅
  else if index_name = "reviews" then
    totalAux st.STOPWORDS st.reviews_index (fun v => v.map Prod.fst) query_tokens none
  else if index_name = "brand" then
    totalAux st.STOPWORDS st.brand_index id query_tokens none
  else if index_name = "domain" then
    totalAux st.STOPWORDS st.domain_index id query_tokens none
  else .error "ValueError"

/-! ## BM25 (`search_engine.py` lines 233-363) -/

/-- The method `SearchEngine.get_doc_length` (lines 233-243). -/
def get_doc_length (st : SearchEngine) (s : String) : ℚ :=
  ((tokenize st.indexer_STOPWORDS s).length : ℚ)

/-- The method `SearchEngine.get_avg_doc_length` (lines 245-271); an empty product
list makes `sum(avg_len)/len(avg_len)` raise `ZeroDivisionError`. -/
def get_avg_doc_length (st : SearchEngine) (doc_field : String) : Except String ℚ :=
  if doc_field = "title" then
    match st.products_list with
    | [] => .error "ZeroDivisionError"
    | _ :: _ =>
      .ok (((st.products_list.map (fun p => get_doc_length st p.title)).sum) /
           (st.products_list.length : ℚ))
  else if doc_field = "description" then
    match st.products_list with
    | [] => .error "ZeroDivisionError"
    | _ :: _ =>
      .ok (((st.products_list.map (fun p => get_doc_length st p.description)).sum) /
           (st.products_list.length : ℚ))
  else .error "ValueError"

/-- The method `SearchEngine.get_freq` (lines 273-307).  For `origin`/`brand` the
field value is wrapped in a one-element list and `.count(token)` compares
the raw (non-lowercased) stored value with the token; a missing feature key
raises `KeyError`.  For `domain` the source returns the constant `0`. -/
def get_freq (st : SearchEngine) (token doc_id doc_field : String) : Except String ℚ :=
  if doc_field = "title" then
    match get_product_by_id st doc_id with
    | .error e => .error e
    | .ok p => .ok (((tokenize st.indexer_STOPWORDS p.title).count token : ℚ))
  else if doc_field = "description" then
    match get_product_by_id st doc_id with
    | .error e => .error e
    | .ok p => .ok (((tokenize st.indexer_STOPWORDS p.description).count token : ℚ))
  else if doc_field = "origin" then
    match get_product_by_id st doc_id with
    | .error e => .error e
    | .ok p =>
      match alookup "made in" p.product_features with
      | some v => .ok (if v = FeatVal.str token then 1 else 0)
      | none => .error "KeyError"
  else if doc_field = "brand" then
    match get_product_by_id st doc_id with
    | .error e => .error e
    | .ok p =>
      match alookup "brand" p.product_features with
      | some v => .ok (if v = FeatVal.str token then 1 else 0)
      | none => .error "KeyError"
  else if doc_field = "domain" then .ok 0
  else .error "ValueError"

/-- The scoring loop of `compute_bm25` (lines 354-362), generic in the
index value type `β`: `memOf v` is `doc_id in index[token]` and `dfOf v` is
`len(index[token])`.  Python's divisions raise `ZeroDivisionError` on a
zero divisor, hence the guards. -/
def bm25Loop (log : ℚ → ℚ) (st : SearchEngine) (doc_field doc_id : String)
    (N dl avg k1 b : ℚ) {β : Type} (idx : Option (List (String × β)))
    (memOf : β → Bool) (dfOf : β → ℚ) :
    List String → ℚ → Except String ℚ
  | [], score => .ok score
  | token :: ts, score =>
    match idx with
    | none => .error "TypeError"
    | some l =>
      match alookup token l with
      | some v =>
        if memOf v then
          match get_freq st token doc_id doc_field with
          | .error e => .error e
          | .ok freq =>
            let doc_freq := dfOf v
            let idf := log ((N - doc_freq + 1/2) / (doc_freq + 1/2) + 1)
            let numerator := freq * (k1 + 1)
            if avg = 0 then .error "ZeroDivisionError"
            else
              let denominator := freq + k1 * (1 - b + b * (dl / avg))
              if denominator = 0 then .error "ZeroDivisionError"
              else
                bm25Loop log st doc_field doc_id N dl avg k1 b idx memOf dfOf ts
                  (score + idf * (numerator / denominator))
        else bm25Loop log st doc_field doc_id N dl avg k1 b idx memOf dfOf ts score
      | none => bm25Loop log st doc_field doc_id N dl avg k1 b idx memOf dfOf ts score

/-- The method `SearchEngine.compute_bm25` (lines 309-363).  `doc_length` and
`avg_doc_length` are token counts for `title`/`description` and the
constants `1`/`1` for `origin`, `brand` and `domain`. -/
def compute_bm25 (log : ℚ → ℚ) (st : SearchEngine) (query_tokens : List String)
    (product : Product) (doc_field : String) (k1 b : ℚ) : Except String ℚ :=
  let N : ℚ := (st.products_list.length : ℚ)
  if doc_field = "title" then
    match get_avg_doc_length st "title" with
    | .error e => .error e
    | .ok avg =>
      bm25Loop log st "title" product.id N (get_doc_length st product.title) avg k1 b
        st.title_index (fun v => (alookup product.id v).isSome) (fun v => (v.length : ℚ))
        query_tokens 0
  else if doc_field = "description" then
    match get_avg_doc_length st "description" with
    | .error e => .error e
    | .ok avg =>
      bm25Loop log st "description" product.id N (get_doc_length st product.description) avg
        k1 b st.description_index (fun v => (alookup product.id v).isSome)
        (fun v => (v.length : ℚ)) query_tokens 0
  else if doc_field = "origin" then
    bm25Loop log st "origin" product.id N 1 1 k1 b st.origin_index
      (fun v => decide (product.id ∈ v)) (fun v => (v.length : ℚ)) query_tokens 0
  else if doc_field = "brand" then
    bm25Loop log st "brand" product.id N 1 1 k1 b st.brand_index
      (fun v => decide (product.id ∈ v)) (fun v => (v.length : ℚ)) query_tokens 0
  else if doc_field = "domain" then
    bm25Loop log st "domain" product.id N 1 1 k1 b st.domain_index
      (fun v => decide (product.id ∈ v)) (fun v => (v.length : ℚ)) query_tokens 0
  else .error "ValueError"

/-! ## Custom score (`search_engine.py` lines 150-200) -/

/-- Python `min(positions) if positions else dflt`. -/
def minD (l : List ℚ) (dflt : ℚ) : ℚ :=
  match l with
  | [] => dflt
  | x :: xs => xs.foldl min x

/-- One iteration of the early-position loop for one field (lines 185-195):
if the token matches the document in the field's positional index, the
field's position score is **overwritten** with `100/(1+min positions)`
(`9999` if the stored list is empty); otherwise it is left unchanged. -/
def posStep (idx : Option PosIndex) (doc token : String) (cur : ℚ) : Except String ℚ :=
  match idx with
  | none => .error "TypeError"
  | some l =>
    .ok (match alookup token l with
         | some docmap =>
           match alookup doc docmap with
           | some positions => 100 / (1 + minD positions 9999)
           | none => cur
         | none => cur)

/-- The early-position loop over all query tokens, carrying the pair
`(title_pos_score, desc_pos_score)` (both start at `0`). -/
def posLoop (st : SearchEngine) (doc_id : String) :
    List String → ℚ × ℚ → Except String (ℚ × ℚ)
  | [], p => .ok p
  | token :: ts, p =>
    match posStep st.title_index doc_id token p.1 with
    | .error e => .error e
    | .ok t =>
      match posStep st.description_index doc_id token p.2 with
      | .error e => .error e
      | .ok d => posLoop st doc_id ts (t, d)

/-- The early-position component `title_pos_score * 0.4 +
desc_pos_score * 0.6` of `get_custom_score` (lines 182-197). -/
def posComponent (st : SearchEngine) (query_tokens : List String) (doc_id : String) :
    Except String ℚ :=
  match posLoop st doc_id query_tokens (0, 0) with
  | .error e => .error e
  | .ok p => .ok (p.1 * 0.4 + p.2 * 0.6)

/-- The term-presence counters of `get_custom_score` (lines 164-174):
number of query tokens whose posting in the given positional index contains
`doc_id`. -/
def matchCount (idx : Option PosIndex) (doc_id : String) :
    List String → Nat → Except String Nat
  | [], n => .ok n
  | t :: ts, n =>
    match idx with
    | none => .error "TypeError"
    | some l =>
      matchCount idx doc_id ts
        (n + (match alookup t l with
              | some v => if (alookup doc_id v).isSome then 1 else 0
              | none => 0))

/-- Numeric access `record[key]` on a review record: a missing key raises
`KeyError`; a JSON `null` value would make the subsequent arithmetic raise
`TypeError`. -/
def recNum (rec : List (String × RVal)) (key : String) : Except String ℚ :=
  match alookup key rec with
  | some (.num q) => .ok q
  | some .null => .error "TypeError"
  | none => .error "KeyError"

/-- The method `SearchEngine.get_custom_score` (lines 150-200).  Note the review part
reads `review_data["mean_mark"]` and `review_data["total_reviews"]`. -/
def get_custom_score (log : ℚ → ℚ) (st : SearchEngine) (query doc_id : String) :
    Except String ℚ :=
  match get_query_tokens_with_synonyms st query with
  | .error e => .error e
  | .ok query_tokens =>
    match matchCount st.title_index doc_id query_tokens 0 with
    | .error e => .error e
    | .ok title_match =>
      match matchCount st.description_index doc_id query_tokens 0 with
      | .error e => .error e
      | .ok desc_match =>
        match (match st.reviews_index with
               | none => Except.error "TypeError"
               | some l =>
                 match alookup doc_id l with
                 | some rec => Except.ok rec
                 | none => Except.error "KeyError") with
        | .error e => .error e
        | .ok review_data =>
          match recNum review_data "mean_mark" with
          | .error e => .error e
          | .ok mean_mark =>
            match recNum review_data "total_reviews" with
            | .error e => .error e
            | .ok total_reviews =>
              match posComponent st query_tokens doc_id with
              | .error e => .error e
              | .ok pos_score =>
                .ok (((title_match * 2 + desc_match : Nat) : ℚ) + mean_mark * 2 +
                     log (1 + total_reviews) + pos_score)

/-! ## Ranking (`search_engine.py` lines 202-231) -/

/-- The per-document loop of `rank_docs` (lines 215-230): five per-field
BM25 scores (with the default parameters `k1=1.5`, `b=0.75`), the custom
score, and `scores[doc_id] = bm25 + log(max(0.1, custom_score))`. -/
def rankAux (log : ℚ → ℚ) (st : SearchEngine) (query_tokens : List String)
    (query : String) :
    List String → List (String × ℚ) → Except String (List (String × ℚ))
  | [], scores => .ok scores
  | doc_id :: rest, scores =>
    match get_product_by_id st doc_id with
    | .error e => .error e
    | .ok product =>
      match compute_bm25 log st query_tokens product "title" (3/2) (3/4) with
      | .error e => .error e
      | .ok title_score =>
        match compute_bm25 log st query_tokens product "description" (3/2) (3/4) with
        | .error e => .error e
        | .ok description_score =>
          match compute_bm25 log st query_tokens product "origin" (3/2) (3/4) with
          | .error e => .error e
          | .ok origin_score =>
            match compute_bm25 log st query_tokens product "brand" (3/2) (3/4) with
            | .error e => .error e
            | .ok brand_score =>
              match compute_bm25 log st query_tokens product "domain" (3/2) (3/4) with
              | .error e => .error e
              | .ok domain_score =>
                match get_custom_score log st query doc_id with
                | .error e => .error e
                | .ok custom_score =>
                  rankAux log st query_tokens query rest
                    (scores ++ [(doc_id,
                      title_score + description_score + origin_score + brand_score +
                        domain_score + log (max (1/10) custom_score))])

/-- The method `SearchEngine.rank_docs` (lines 202-231); `matching_docs` is a Python
set of document ids, modelled as a duplicate-free list in iteration
order. -/
def rank_docs (log : ℚ → ℚ) (st : SearchEngine) (query : String)
    (matching_docs : List String) : Except String (List (String × ℚ)) :=
  match get_query_tokens_with_synonyms st query with
  | .error e => .error e
  | .ok query_tokens => rankAux log st query_tokens query matching_docs []

/-! ## Concrete engine states used as test fixtures -/

/-- The state of a `SearchEngine` right after `__init__` when every index
file was missing at `load_indexes` time: all seven attributes are `None`. -/
def noIndexEngine : SearchEngine :=
  { STOPWORDS := [], indexer_STOPWORDS := [], products_list := [],
    title_index := none, description_index := none, origin_index := none,
    reviews_index := none, brand_index := none, domain_index := none,
    origin_synonyms := none }

/-- An engine whose origin index is phrase-keyed by `"made in brazil"`. -/
def phraseOriginEngine : SearchEngine :=
  { noIndexEngine with origin_index := some [("made in brazil", ["d1"])] }

/-! ## Claim C3 -/

/-- C3 (code bug exhibit): after `load_indexes` leaves `title_index` unset
(`None`), `filter_partial_match` and `filter_total_match` on a non-empty
token list raise `TypeError` (`token in None`) instead of returning the
empty set; only the empty token list yields the empty set. -/
theorem unset_index_filters_raise_typeerror :
    filter_partial_match noIndexEngine ["chocolate"] "title" = .error "TypeError" ∧
    filter_total_match noIndexEngine ["chocolate"] "title" = .error "TypeError" ∧
    filter_partial_match noIndexEngine [] "title" = .ok ∅ ∧
    filter_total_match noIndexEngine [] "title" = .ok ∅ := by
  refine ⟨rfl, ?_, rfl, rfl⟩
  simp [filter_total_match, totalAux, noIndexEngine]

/-! ## Claim C2 -/

theorem partialAux_none_error {β : Type} (f : β → List String) (t : String)
    (ts : List String) (acc : Finset String) :
    partialAux (β := β) none f (t :: ts) acc = .error "TypeError" := rfl

theorem partialAux_acc_subset {β : Type} (l : List (String × β)) (f : β → List String) :
    ∀ (ts : List String) (acc S : Finset String),
      partialAux (some l) f ts acc = .ok S → acc ⊆ S := by
  intro ts
  induction ts with
  | nil => intro acc S h; simp [partialAux] at h; simp [h]
  | cons t ts ih =>
    intro acc S h
    simp only [partialAux] at h
    cases hl : alookup t l with
    | some v =>
      rw [hl] at h
      exact fun x hx => ih _ _ h (Finset.mem_union_left _ hx)
    | none => rw [hl] at h; exact ih _ _ h

theorem partialAux_hit_subset {β : Type} (l : List (String × β)) (f : β → List String) :
    ∀ (ts : List String) (acc S : Finset String) (t : String) (v : β),
      partialAux (some l) f ts acc = .ok S → t ∈ ts → alookup t l = some v →
      (f v).toFinset ⊆ S := by
  intro ts
  induction ts with
  | nil => intro _ _ _ _ _ ht; exact absurd ht (List.not_mem_nil _)
  | cons t' ts ih =>
    intro acc S t v h ht hl
    simp only [partialAux] at h
    rcases List.mem_cons.mp ht with rfl | ht'
    · rw [hl] at h
      exact fun x hx =>
        partialAux_acc_subset l f ts _ S h (Finset.mem_union_right _ hx)
    · cases hl' : alookup t' l with
      | some v' => rw [hl'] at h; exact ih _ _ _ _ h ht' hl
      | none => rw [hl'] at h; exact ih _ _ _ _ h ht' hl

theorem totalAux_subset {β : Type} (stop : List String) (l : List (String × β))
    (f : β → List String) :
    ∀ (ts : List String) (macc : Option (Finset String)) (acc S P : Finset String),
      totalAux stop (some l) f ts macc = .ok S →
      partialAux (some l) f ts acc = .ok P →
      S ⊆ macc.getD ∅ ∪ P := by
  intro ts
  induction ts with
  | nil =>
    intro macc acc S P hS hP
    simp [totalAux] at hS
    exact hS ▸ Finset.subset_union_left
  | cons t ts ih =>
    intro macc acc S P hS hP
    simp only [totalAux] at hS
    simp only [partialAux] at hP
    by_cases hstop : t ∈ stop
    · simp only [if_pos hstop] at hS
      cases hl : alookup t l with
      | some v =>
        rw [hl] at hP
        exact (ih macc _ S P hS hP)
      | none =>
        rw [hl] at hP
        exact (ih macc _ S P hS hP)
    · simp only [if_neg hstop] at hS
      cases hl : alookup t l with
      | some v =>
        rw [hl] at hS hP
        have hv : (f v).toFinset ⊆ P := fun x hx =>
          partialAux_acc_subset l f ts _ P hP (Finset.mem_union_right _ hx)
        have h1 := ih _ _ S P hS hP
        refine h1.trans (Finset.union_subset ?_ Finset.subset_union_right)
        intro x hx
        apply Finset.mem_union_right
        apply hv
        cases macc with
        | none => simpa using hx
        | some m => exact Finset.mem_of_mem_inter_right (by simpa using hx)
      | none =>
        rw [hl] at hS
        cases hS
        exact Finset.empty_subset _

/-- C2 (amended): for the non-phrase indexes `title`, `description`,
`brand` and `domain`, any successful total match is a subset of the
partial match on the same tokens. -/
theorem total_match_subset_partial_match (st : SearchEngine) (tokens : List String)
    (name : String) (S P : Finset String)
    (hname : name = "title" ∨ name = "description" ∨ name = "brand" ∨ name = "domain")
    (hS : filter_total_match st tokens name = .ok S)
    (hP : filter_partial_match st tokens name = .ok P) :
    S ⊆ P := by
  have main : ∀ {β : Type} (idx : Option (List (String × β))) (f : β → List String),
      totalAux st.STOPWORDS idx f tokens none = .ok S →
      partialAux idx f tokens ∅ = .ok P → S ⊆ P := by
    intro β idx f hS' hP'
    cases idx with
    | none =>
      cases tokens with
      | nil =>
        simp only [totalAux, Option.getD_none, Except.ok.injEq] at hS'
        rw [← hS']
        exact Finset.empty_subset _
      | cons t ts => rw [partialAux_none_error] at hP'; cases hP'
    | some l =>
      have := totalAux_subset st.STOPWORDS l f tokens none ∅ S P hS' hP'
      simpa using this
  rcases hname with rfl | rfl | rfl | rfl
  · exact main st.title_index _ (by simpa [filter_total_match] using hS)
      (by simpa [filter_partial_match] using hP)
  · exact main st.description_index _ (by simpa [filter_total_match] using hS)
      (by simpa [filter_partial_match] using hP)
  · exact main st.brand_index _ (by simpa [filter_total_match] using hS)
      (by simpa [filter_partial_match] using hP)
  · exact main st.domain_index _ (by simpa [filter_total_match] using hS)
      (by simpa [filter_partial_match] using hP)

/-- C2 (counterexample): on the phrase-indexed `origin` index the claim
fails: total match finds the phrase key `"made in brazil"` and returns
`{"d1"}` while partial match, which looks tokens up individually, returns
the empty set. -/
theorem total_match_not_subset_partial_match_on_origin :
    filter_total_match phraseOriginEngine ["made", "in", "brazil"] "origin" =
        .ok {"d1"} ∧
    filter_partial_match phraseOriginEngine ["made", "in", "brazil"] "origin" = .ok ∅ ∧
    ¬ ({"d1"} : Finset String) ⊆ (∅ : Finset String) := by
  refine ⟨?_, ?_, by decide⟩ <;> rfl

/-- Witness for `total_match_subset_partial_match` at a concrete state. -/
theorem total_match_subset_partial_match_witness :
    ({"d1"} : Finset String) ⊆ {"d1"} :=
  total_match_subset_partial_match
    { noIndexEngine with brand_index := some [("acme", ["d1"])] }
    ["acme"] "brand" {"d1"} {"d1"} (by simp) rfl rfl

/-! ## Claim C8 -/

/-- The documents contributed by the sub-phrase `tokens[i:j]`: the document
set stored under the space-joined phrase, empty if the phrase is not a key. -/
def originHit (l : DocIndex) (tokens : List String) (i j : Nat) : Finset String :=
  match alookup (" ".intercalate ((tokens.drop i).take (j - i))) l with
  | some docs => docs.toFinset
  | none => ∅

/-- Spec-side definition, following the spec's words: the union, over all
contiguous sub-sequences `(i, j)` of the query-token sequence whose
space-joined phrase is a key of the origin index, of that key's document
set. -/
def specOriginPhraseUnion (l : DocIndex) (tokens : List String) : Finset String :=
  ((Finset.range tokens.length ×ˢ Finset.range (tokens.length + 1)).filter
    (fun ij => ij.1 < ij.2)).biUnion (fun ij => originHit l tokens ij.1 ij.2)

theorem originStep_mem (l : DocIndex) (tokens : List String)
    (fd : Option (Finset String)) (i j : Nat) (x : String) :
    x ∈ (originStep l tokens fd i j).getD ∅ ↔
      x ∈ fd.getD ∅ ∨ x ∈ originHit l tokens i j := by
  cases h : alookup (" ".intercalate ((tokens.drop i).take (j - i))) l with
  | some docs => cases fd <;> simp [originStep, originHit, h, or_comm]
  | none => cases fd <;> simp [originStep, originHit, h]

theorem originInner_fold_mem (l : DocIndex) (tokens : List String) (i : Nat) :
    ∀ (js : List Nat) (fd : Option (Finset String)) (x : String),
      x ∈ ((js.foldl (fun fd j => originStep l tokens fd i j) fd).getD ∅) ↔
        x ∈ fd.getD ∅ ∨ ∃ j ∈ js, x ∈ originHit l tokens i j := by
  intro js
  induction js with
  | nil => intro fd x; simp
  | cons j js ih =>
    intro fd x
    rw [List.foldl_cons, ih, originStep_mem]
    simp only [List.mem_cons]
    constructor
    · rintro ((h | h) | ⟨j', hj', h⟩)
      · exact Or.inl h
      · exact Or.inr ⟨j, Or.inl rfl, h⟩
      · exact Or.inr ⟨j', Or.inr hj', h⟩
    · rintro (h | ⟨j', (rfl | hj'), h⟩)
      · exact Or.inl (Or.inl h)
      · exact Or.inl (Or.inr h)
      · exact Or.inr ⟨j', hj', h⟩

theorem originPhraseLoop_mem (l : DocIndex) (tokens : List String) :
    ∀ (is : List Nat) (fd : Option (Finset String)) (x : String),
      x ∈ ((is.foldl (fun fd i => originInner l tokens i fd) fd).getD ∅) ↔
        x ∈ fd.getD ∅ ∨
          ∃ i ∈ is, ∃ j ∈ List.range' (i + 1) (tokens.length - i),
            x ∈ originHit l tokens i j := by
  intro is
  induction is with
  | nil => intro fd x; simp
  | cons i is ih =>
    intro fd x
    rw [List.foldl_cons, ih]
    unfold originInner
    rw [originInner_fold_mem]
    simp only [List.mem_cons]
    constructor
    · rintro ((h | h) | ⟨i', hi', h⟩)
      · exact Or.inl h
      · exact Or.inr ⟨i, Or.inl rfl, h⟩
      · exact Or.inr ⟨i', Or.inr hi', h⟩
    · rintro (h | ⟨i', (rfl | hi'), h⟩)
      · exact Or.inl (Or.inl h)
      · exact Or.inl (Or.inr h)
      · exact Or.inr ⟨i', hi', h⟩

/-- C8: for the `origin` index, `filter_total_match` returns the union over
all contiguous sub-phrases of the token list that are keys of the index (no
per-token intersection), and in particular tokens `["made","in","brazil"]`
hit an origin index keyed by the single word `"brazil"`. -/
theorem origin_total_match_is_phrase_union :
    (∀ (st : SearchEngine) (l : DocIndex) (tokens : List String),
      st.origin_index = some l →
      filter_total_match st tokens "origin" = .ok (specOriginPhraseUnion l tokens)) ∧
    filter_total_match { noIndexEngine with origin_index := some [("brazil", ["d1"])] }
      ["made", "in", "brazil"] "origin" = .ok {"d1"} := by
  constructor
  · intro st l tokens hidx
    have hval : (originPhraseLoop l tokens).getD ∅ = specOriginPhraseUnion l tokens := by
      apply Finset.ext
      intro x
      rw [originPhraseLoop]
      rw [originPhraseLoop_mem]
      simp only [Option.getD_none, Finset.not_mem_empty, false_or, List.mem_range,
        List.mem_range'_1, specOriginPhraseUnion, Finset.mem_biUnion, Finset.mem_filter,
        Finset.mem_product, Finset.mem_range, Prod.exists]
      constructor
      · rintro ⟨i, hi, j, ⟨hij, hj⟩, h⟩
        exact ⟨i, j, ⟨⟨hi, by omega⟩, by omega⟩, h⟩
      · rintro ⟨i, j, ⟨⟨hi, hj⟩, hij⟩, h⟩
        exact ⟨i, hi, j, ⟨by omega, by omega⟩, h⟩
    have hred : filter_total_match st tokens "origin" =
        (match originPhraseLoop l tokens with
         | some found => Except.ok found
         | none => Except.ok (∅ : Finset String)) := by
      simp [filter_total_match, hidx]
    rw [hred]
    cases hloop : originPhraseLoop l tokens with
    | some found =>
      rw [hloop] at hval
      simp only [Option.getD_some] at hval
      simp only [hval]
    | none =>
      rw [hloop] at hval
      simp only [Option.getD_none] at hval
      simp only [hval]
  · rfl

/-- Witness for `origin_total_match_is_phrase_union` at a concrete state. -/
theorem origin_total_match_is_phrase_union_witness :
    filter_total_match phraseOriginEngine ["made", "in", "brazil"] "origin" =
      .ok (specOriginPhraseUnion [("made in brazil", ["d1"])] ["made", "in", "brazil"]) :=
  origin_total_match_is_phrase_union.1 phraseOriginEngine
    [("made in brazil", ["d1"])] ["made", "in", "brazil"] rfl

/-! ## Claim C4 -/

/-- Python `token in index and doc_id in dict(index[token])`. -/
def posMatched (l : PosIndex) (doc token : String) : Bool :=
  match alookup token l with
  | some dm => (alookup doc dm).isSome
  | none => false

/-- Python `min(positions) if positions else 9999` for a matched token
(`9999` also as the don't-care value for unmatched tokens). -/
def firstPosOf (l : PosIndex) (doc token : String) : ℚ :=
  match alookup token l with
  | some dm =>
    match alookup doc dm with
    | some ps => minD ps 9999
    | none => 9999
  | none => 9999

/-- What the code actually keeps for one field: the position score of the
**last** query token (in iteration order) that matches the document in the
field's index, or `0` if no token matches. -/
def lastMatchScore (l : PosIndex) (tokens : List String) (doc : String) : ℚ :=
  match (tokens.filter (posMatched l doc)).getLast? with
  | none => 0
  | some t => 100 / (1 + firstPosOf l doc t)

/-- Spec-side definition, following the spec's words: per field, the first
matched position is the minimum position among **all** matched query terms,
defaulting to `9999` when no query term matches. -/
def specFieldFirstPos (l : PosIndex) (tokens : List String) (doc : String) : ℚ :=
  minD ((tokens.filter (posMatched l doc)).map (fun t => firstPosOf l doc t)) 9999

/-- Spec-side definition of the early-position component:
`0.4 * 100/(1+p_title) + 0.6 * 100/(1+p_desc)`. -/
def specPosComponent (ti di : PosIndex) (tokens : List String) (doc : String) : ℚ :=
  (100 / (1 + specFieldFirstPos ti tokens doc)) * 0.4 +
    (100 / (1 + specFieldFirstPos di tokens doc)) * 0.6

/-- Variant of `lastMatchScore` with an explicit initial accumulator, mirroring the
loop's running `title_pos_score` / `desc_pos_score`. -/
def foldLast (l : PosIndex) (doc : String) (tokens : List String) (a : ℚ) : ℚ :=
  match (tokens.filter (posMatched l doc)).getLast? with
  | none => a
  | some t => 100 / (1 + firstPosOf l doc t)

theorem posStep_some (l : PosIndex) (doc token : String) (cur : ℚ) :
    posStep (some l) doc token cur =
      .ok (if posMatched l doc token then 100 / (1 + firstPosOf l doc token) else cur) := by
  cases h : alookup token l with
  | some dm =>
    cases h2 : alookup doc dm with
    | some ps => simp [posStep, posMatched, firstPosOf, h, h2]
    | none => simp [posStep, posMatched, firstPosOf, h, h2]
  | none => simp [posStep, posMatched, firstPosOf, h]

theorem foldLast_cons (l : PosIndex) (doc : String) (t : String) (ts : List String) (a : ℚ) :
    foldLast l doc (t :: ts) a =
      foldLast l doc ts (if posMatched l doc t then 100 / (1 + firstPosOf l doc t) else a) := by
  by_cases hm : posMatched l doc t
  · cases hf : ts.filter (posMatched l doc) with
    | nil => simp [foldLast, List.filter_cons, hm, hf]
    | cons x xs =>
      simp only [foldLast, List.filter_cons, hm, if_pos rfl, hf]
      cases hLast : (x :: xs).getLast? with
      | none =>
        have := congrArg Option.isSome hLast
        simp at this
      | some y => simp [List.getLast?_cons_cons, hLast]
  · simp [foldLast, List.filter_cons, hm]

theorem posLoop_some (st : SearchEngine) (doc : String) (ti di : PosIndex)
    (hti : st.title_index = some ti) (hdi : st.description_index = some di) :
    ∀ (tokens : List String) (a b : ℚ),
      posLoop st doc tokens (a, b) = .ok (foldLast ti doc tokens a, foldLast di doc tokens b) := by
  intro tokens
  induction tokens with
  | nil => intro a b; simp [posLoop, foldLast]
  | cons t ts ih =>
    intro a b
    rw [posLoop, hti, hdi, posStep_some, posStep_some]
    rw [foldLast_cons, foldLast_cons]
    exact ih _ _

/-- C4 (amended): the early-position component of `get_custom_score`
equals `s_title * 0.4 + s_desc * 0.6`, where `s_field` is
`100/(1 + p_field)` with `p_field` the minimum stored position of the
**last** query token (in iteration order) that matches the document in that
field, and `s_field = 0` when no query token matches in that field (the
`9999` default applies only to a matched token whose stored position list
is empty). -/
theorem pos_component_uses_last_match (st : SearchEngine) (tokens : List String)
    (doc : String) (ti di : PosIndex)
    (hti : st.title_index = some ti) (hdi : st.description_index = some di) :
    posComponent st tokens doc =
      .ok (lastMatchScore ti tokens doc * 0.4 + lastMatchScore di tokens doc * 0.6) := by
  rw [posComponent, posLoop_some st doc ti di hti hdi tokens 0 0]
  rfl

/-- The engine for the C4 counterexample: `"aaa"` occurs at title position
0 and `"bbb"` at title position 5 of document `"d"`; the description index
is empty. -/
def lastVsMinTitleIndex : PosIndex := [("aaa", [("d", [0])]), ("bbb", [("d", [5])])]

/-- Engine state for the C4 counterexample. -/
def lastVsMinEngine : SearchEngine :=
  { noIndexEngine with
    title_index := some lastVsMinTitleIndex,
    description_index := some [],
    origin_synonyms := some [] }

/-- C4 (counterexample): for the query `"aaa bbb"` (whose expansion is
`["aaa", "bbb"]`) and document `"d"`, the code keeps the last matched
token's score `0.4 * 100/(1+5) = 20/3`, while the spec's formula — minimum
position over all matched terms, `9999` default — gives
`0.4 * 100/(1+0) + 0.6 * 100/(1+9999) = 20003/500`. -/
theorem pos_component_counterexample :
    get_query_tokens_with_synonyms lastVsMinEngine "aaa bbb" = .ok ["aaa", "bbb"] ∧
    posComponent lastVsMinEngine ["aaa", "bbb"] "d" = .ok (20 / 3) ∧
    specPosComponent lastVsMinTitleIndex [] ["aaa", "bbb"] "d" = 20003 / 500 ∧
    (20 / 3 : ℚ) ≠ 20003 / 500 := by
  refine ⟨rfl, ?_, ?_, by norm_num⟩
  · rw [pos_component_uses_last_match lastVsMinEngine ["aaa", "bbb"] "d"
      lastVsMinTitleIndex [] rfl rfl]
    have h1 : lastMatchScore lastVsMinTitleIndex ["aaa", "bbb"] "d" = 50 / 3 := by
      simp [lastMatchScore, lastVsMinTitleIndex, posMatched, firstPosOf, alookup, minD]
      norm_num
    have h2 : lastMatchScore [] ["aaa", "bbb"] "d" = 0 := by
      simp [lastMatchScore, posMatched, alookup]
    rw [h1, h2]
    norm_num
  · simp [specPosComponent, specFieldFirstPos, lastVsMinTitleIndex, posMatched,
      firstPosOf, alookup, minD]
    norm_num

/-- Witness for `pos_component_uses_last_match` at a concrete state. -/
theorem pos_component_uses_last_match_witness :
    posComponent lastVsMinEngine ["aaa", "bbb"] "d" =
      .ok (lastMatchScore lastVsMinTitleIndex ["aaa", "bbb"] "d" * 0.4 +
           lastMatchScore [] ["aaa", "bbb"] "d" * 0.6) :=
  pos_component_uses_last_match lastVsMinEngine ["aaa", "bbb"] "d"
    lastVsMinTitleIndex [] rfl rfl

/-! ## Claim C5 -/

/-- Spec-side definition of BM25 on a single-valued field, following the
spec's words: `doc_length = avg_doc_length = 1` degenerates each per-term
contribution to `idf * freq*(k1+1)/(freq + k1)` for the terms present in
the field's index for the document. -/
def specBM25SingleLoop (log : ℚ → ℚ) (st : SearchEngine) (doc_field doc_id : String)
    (N k1 : ℚ) (l : DocIndex) : List String → ℚ → Except String ℚ
  | [], score => .ok score
  | token :: ts, score =>
    match alookup token l with
    | some docs =>
      if doc_id ∈ docs then
        match get_freq st token doc_id doc_field with
        | .error e => .error e
        | .ok freq =>
          let idf := log ((N - (docs.length : ℚ) + 1 / 2) / ((docs.length : ℚ) + 1 / 2) + 1)
          if freq + k1 = 0 then .error "ZeroDivisionError"
          else
            specBM25SingleLoop log st doc_field doc_id N k1 l ts
              (score + idf * ((freq * (k1 + 1)) / (freq + k1)))
      else specBM25SingleLoop log st doc_field doc_id N k1 l ts score
    | none => specBM25SingleLoop log st doc_field doc_id N k1 l ts score

theorem bm25Loop_single_eq (log : ℚ → ℚ) (st : SearchEngine) (doc_field doc_id : String)
    (N k1 b : ℚ) (l : DocIndex) :
    ∀ (tokens : List String) (score : ℚ),
      bm25Loop log st doc_field doc_id N 1 1 k1 b (some l)
        (fun v => decide (doc_id ∈ v)) (fun v => (v.length : ℚ)) tokens score =
      specBM25SingleLoop log st doc_field doc_id N k1 l tokens score := by
  intro tokens
  induction tokens with
  | nil => intro score; rfl
  | cons token ts ih =>
    intro score
    simp only [bm25Loop, specBM25SingleLoop]
    cases h : alookup token l with
    | some docs =>
      by_cases hd : doc_id ∈ docs
      · simp only [hd, decide_True, if_true, if_pos]
        cases hfq : get_freq st token doc_id doc_field with
        | error e => rfl
        | ok freq =>
          have hden : freq + k1 * (1 - b + b * ((1 : ℚ) / 1)) = freq + k1 := by
            rw [show ((1 : ℚ) / 1) = 1 from by norm_num]; ring
          simp only [show ¬((1 : ℚ) = 0) from by norm_num, if_false, hden]
          by_cases hz : freq + k1 = 0
          · rw [if_pos hz, if_pos hz]
          · rw [if_neg hz, if_neg hz, ih]
      · simp [hd, ih]
    | none => exact ih score

/-- Every contribution on the `domain` field vanishes because
`get_freq(..., "domain")` is the constant `0`; the score accumulator never
changes. -/
theorem bm25Loop_domain_const (log : ℚ → ℚ) (st : SearchEngine) (doc_id : String)
    (N b : ℚ) {β : Type} (l : List (String × β)) (memOf : β → Bool) (dfOf : β → ℚ) :
    ∀ (tokens : List String) (score : ℚ),
      bm25Loop log st "domain" doc_id N 1 1 (3 / 2) b (some l) memOf dfOf tokens score =
        .ok score := by
  intro tokens
  induction tokens with
  | nil => intro score; rfl
  | cons token ts ih =>
    intro score
    simp only [bm25Loop]
    cases h : alookup token l with
    | some v =>
      cases hm : memOf v with
      | true =>
        have hfq : get_freq st token doc_id "domain" = .ok 0 := rfl
        simp only [hm, if_true, hfq]
        have hden : (0 : ℚ) + 3 / 2 * (1 - b + b * ((1 : ℚ) / 1)) = 3 / 2 := by
          rw [show ((1 : ℚ) / 1) = 1 from by norm_num]; ring
        simp only [show ¬((1 : ℚ) = 0) from by norm_num, if_false, hden]
        rw [if_neg (by norm_num : ¬((3 : ℚ) / 2 = 0))]
        have hzero : score + log ((N - dfOf v + 1 / 2) / (dfOf v + 1 / 2) + 1) *
            (0 * (3 / 2 + 1) / (3 / 2)) = score := by ring
        rw [hzero, ih]
      | false =>
        simp only [hm, Bool.false_eq_true, if_false]
        exact ih score
    | none => exact ih score

theorem compute_bm25_origin_def (log : ℚ → ℚ) (st : SearchEngine)
    (query_tokens : List String) (product : Product) (k1 b : ℚ) :
    compute_bm25 log st query_tokens product "origin" k1 b =
      bm25Loop log st "origin" product.id (st.products_list.length : ℚ) 1 1 k1 b
        st.origin_index (fun v => decide (product.id ∈ v)) (fun v => (v.length : ℚ))
        query_tokens 0 := rfl

theorem compute_bm25_brand_def (log : ℚ → ℚ) (st : SearchEngine)
    (query_tokens : List String) (product : Product) (k1 b : ℚ) :
    compute_bm25 log st query_tokens product "brand" k1 b =
      bm25Loop log st "brand" product.id (st.products_list.length : ℚ) 1 1 k1 b
        st.brand_index (fun v => decide (product.id ∈ v)) (fun v => (v.length : ℚ))
        query_tokens 0 := rfl

theorem compute_bm25_domain_def (log : ℚ → ℚ) (st : SearchEngine)
    (query_tokens : List String) (product : Product) (k1 b : ℚ) :
    compute_bm25 log st query_tokens product "domain" k1 b =
      bm25Loop log st "domain" product.id (st.products_list.length : ℚ) 1 1 k1 b
        st.domain_index (fun v => decide (product.id ∈ v)) (fun v => (v.length : ℚ))
        query_tokens 0 := rfl

/-- C5 (amended): on the single-valued fields `compute_bm25` runs with
`doc_length = avg_doc_length = 1`, so each per-term denominator degenerates
to `freq + k1`; but `freq` comes from `get_freq`, which on `domain` is the
constant `0` (so the whole domain score is `0`), and on `origin`/`brand` is
`1` exactly when the term equals the raw stored feature value and `0`
otherwise — a term present in the index need not contribute a strictly
positive amount. -/
theorem bm25_single_valued_fields (log : ℚ → ℚ) :
    (∀ (st : SearchEngine) (tokens : List String) (product : Product)
        (l : DocIndex) (b : ℚ), st.domain_index = some l →
        compute_bm25 log st tokens product "domain" (3 / 2) b = .ok 0) ∧
    (∀ (st : SearchEngine) (tokens : List String) (product : Product)
        (l : DocIndex) (k1 b : ℚ), st.origin_index = some l →
        compute_bm25 log st tokens product "origin" k1 b =
          specBM25SingleLoop log st "origin" product.id (st.products_list.length : ℚ)
            k1 l tokens 0) ∧
    (∀ (st : SearchEngine) (tokens : List String) (product : Product)
        (l : DocIndex) (k1 b : ℚ), st.brand_index = some l →
        compute_bm25 log st tokens product "brand" k1 b =
          specBM25SingleLoop log st "brand" product.id (st.products_list.length : ℚ)
            k1 l tokens 0) ∧
    (∀ (st : SearchEngine) (token doc : String) (p : Product) (v : FeatVal),
        get_product_by_id st doc = .ok p →
        alookup "made in" p.product_features = some v →
        get_freq st token doc "origin" = .ok (if v = FeatVal.str token then 1 else 0)) ∧
    (∀ (st : SearchEngine) (token doc : String) (p : Product) (v : FeatVal),
        get_product_by_id st doc = .ok p →
        alookup "brand" p.product_features = some v →
        get_freq st token doc "brand" = .ok (if v = FeatVal.str token then 1 else 0)) := by
  refine ⟨?_, ?_, ?_, ?_, ?_⟩
  · intro st tokens product l b hidx
    rw [compute_bm25_domain_def, hidx]
    exact bm25Loop_domain_const log st product.id _ b l _ _ tokens 0
  · intro st tokens product l k1 b hidx
    rw [compute_bm25_origin_def, hidx]
    exact bm25Loop_single_eq log st "origin" product.id _ k1 b l tokens 0
  · intro st tokens product l k1 b hidx
    rw [compute_bm25_brand_def, hidx]
    exact bm25Loop_single_eq log st "brand" product.id _ k1 b l tokens 0
  · intro st token doc p v hp hv
    simp only [get_freq, hp, hv]
    simp
  · intro st token doc p v hp hv
    simp only [get_freq, hp, hv]
    simp

/-- The product and engine for the C5 counterexample: document `"d1"` is
listed under `"example.com"` in the domain index. -/
def domainZeroProduct : Product :=
  { id := "d1", title := "", description := "", product_features := [],
    product_rewiews := [] }

/-- Engine state for the C5 counterexample. -/
def domainZeroEngine : SearchEngine :=
  { noIndexEngine with
    products_list := [domainZeroProduct],
    domain_index := some [("example.com", ["d1"])] }

/-- C5 (counterexample): the token `"example.com"` is present in the
domain index for document `"d1"`, yet `get_freq` returns `0` (not `≥ 1`)
and the whole domain BM25 score is `0`, not strictly positive — even with
a log function that makes every idf equal to `1`. -/
theorem bm25_domain_presence_contributes_zero :
    alookup "example.com" [("example.com", ["d1"])] = some ["d1"] ∧
    "d1" ∈ ["d1"] ∧
    get_freq domainZeroEngine "example.com" "d1" "domain" = .ok 0 ∧
    compute_bm25 (fun _ => 1) domainZeroEngine ["example.com"] domainZeroProduct
      "domain" (3 / 2) (3 / 4) = .ok 0 := by
  refine ⟨rfl, by simp, rfl, ?_⟩
  rw [compute_bm25_domain_def]
  rw [show domainZeroEngine.domain_index = some [("example.com", ["d1"])] from rfl]
  exact bm25Loop_domain_const (fun _ => 1) domainZeroEngine domainZeroProduct.id _ (3 / 4)
    [("example.com", ["d1"])] _ _ ["example.com"] 0

/-- Witness for `bm25_single_valued_fields` at a concrete state. -/
theorem bm25_single_valued_fields_witness :
    compute_bm25 (fun _ => 1) domainZeroEngine ["example.com"] domainZeroProduct
        "domain" (3 / 2) (3 / 4) = .ok 0 :=
  (bm25_single_valued_fields (fun _ => 1)).1 domainZeroEngine ["example.com"]
    domainZeroProduct [("example.com", ["d1"])] (3 / 4) rfl

/-! ## Claim C9 -/

theorem addPos_same (f : String → String → List Nat) (tok doc : String) (pos : Nat) :
    addPos f tok doc pos tok doc =
      (if pos ∈ f tok doc then f tok doc else f tok doc ++ [pos]) := by
  simp [addPos]

theorem addPos_other (f : String → String → List Nat) (tok doc : String) (pos : Nat)
    (t d : String) (h : ¬(t = tok ∧ d = doc)) : addPos f tok doc pos t d = f t d := by
  simp only [addPos, if_neg h]

theorem foldPairs_pairwise (doc : String) :
    ∀ (ps : List (Nat × String)) (f : String → String → List Nat),
      ps.Pairwise (fun a b => a.1 < b.1) →
      (∀ t, (f t doc).Pairwise (· < ·) ∧ ∀ x ∈ f t doc, ∀ q ∈ ps, x < q.1) →
      (∀ t, ((ps.foldl (fun g pt => addPos g pt.2 doc pt.1) f) t doc).Pairwise (· < ·)) ∧
      (∀ t d, d ≠ doc → (ps.foldl (fun g pt => addPos g pt.2 doc pt.1) f) t d = f t d) := by
  intro ps
  induction ps with
  | nil => intro f _ h; exact ⟨fun t => (h t).1, fun _ _ _ => rfl⟩
  | cons q ps ih =>
    intro f hp h
    obtain ⟨pos, tok⟩ := q
    rw [List.pairwise_cons] at hp
    obtain ⟨hhead, htail⟩ := hp
    rw [List.foldl_cons]
    have hstep : ∀ t, ((addPos f tok doc pos) t doc).Pairwise (· < ·) ∧
        ∀ x ∈ (addPos f tok doc pos) t doc, ∀ q' ∈ ps, x < q'.1 := by
      intro t
      by_cases ht : t = tok
      · subst ht
        rw [addPos_same]
        by_cases hmem : pos ∈ f t doc
        · rw [if_pos hmem]
          exact ⟨(h t).1, fun x hx q' hq' => (h t).2 x hx q' (List.mem_cons_of_mem _ hq')⟩
        · rw [if_neg hmem]
          constructor
          · rw [List.pairwise_append]
            refine ⟨(h t).1, List.pairwise_singleton _ _, ?_⟩
            intro x hx y hy
            rw [List.mem_singleton] at hy
            rw [hy]
            exact (h t).2 x hx (pos, t) (List.mem_cons_self _ _)
          · intro x hx q' hq'
            rcases List.mem_append.mp hx with hx' | hx'
            · exact (h t).2 x hx' q' (List.mem_cons_of_mem _ hq')
            · rw [List.mem_singleton] at hx'
              subst hx'
              exact hhead q' hq'
      · have : addPos f tok doc pos t doc = f t doc :=
          addPos_other f tok doc pos t doc (fun hc => ht hc.1)
        rw [this]
        exact ⟨(h t).1, fun x hx q' hq' => (h t).2 x hx q' (List.mem_cons_of_mem _ hq')⟩
    obtain ⟨c1, c2⟩ := ih (addPos f tok doc pos) htail hstep
    refine ⟨c1, ?_⟩
    intro t d hd
    rw [c2 t d hd, addPos_other f tok doc pos t d (fun hc => hd hc.2)]

theorem buildPos_pairwise (stop : List String) (field : Product → String) :
    ∀ (products : List Product) (f : String → String → List Nat),
      (∀ t d, (f t d).Pairwise (· < ·)) →
      (∀ p ∈ products, ∀ t, f t p.id = []) →
      (products.map Product.id).Nodup →
      ∀ t d,
        ((products.foldl (fun g p => indexFieldPositions stop g p.id (field p)) f) t d).Pairwise
          (· < ·) := by
  intro products
  induction products with
  | nil => intro f hpair _ _ t d; exact hpair t d
  | cons p rest ih =>
    intro f hpair hfresh hnodup t d
    rw [List.foldl_cons]
    rw [List.map_cons, List.nodup_cons] at hnodup
    obtain ⟨hid, hnodup'⟩ := hnodup
    have hstep := foldPairs_pairwise p.id (tokenize_with_positions stop (field p)) f
      (tokenize_with_positions_pairwise stop (field p))
      (fun t' => by
        rw [hfresh p (List.mem_cons_self _ _) t']
        exact ⟨List.Pairwise.nil, fun x hx => absurd hx (List.not_mem_nil _)⟩)
    obtain ⟨c1, c2⟩ := hstep
    refine ih (indexFieldPositions stop f p.id (field p)) ?_ ?_ hnodup' t d
    · intro t' d'
      by_cases hd : d' = p.id
      · subst hd; exact c1 t'
      · rw [show indexFieldPositions stop f p.id (field p) t' d' = f t' d' from c2 t' d' hd]
        exact hpair t' d'
    · intro q hq t'
      have hqid : q.id ≠ p.id := by
        intro hc
        exact hid (hc ▸ List.mem_map_of_mem Product.id hq)
      rw [show indexFieldPositions stop f p.id (field p) t' q.id = f t' q.id from
        c2 t' q.id hqid]
      exact hfresh q (List.mem_cons_of_mem _ hq) t'

/-- C9: in every positional index built by `build_title_positional_index`
or `build_desc_positional_index` (over products with distinct ids, per the
data-model invariant), every stored position list is strictly ascending and
duplicate-free. -/
theorem positional_index_positions_sorted_nodup (stop : List String)
    (products : List Product) (hnodup : (products.map Product.id).Nodup)
    (t d : String) :
    ((build_title_positional_index stop products t d).Sorted (· < ·) ∧
      (build_title_positional_index stop products t d).Nodup) ∧
    ((build_desc_positional_index stop products t d).Sorted (· < ·) ∧
      (build_desc_positional_index stop products t d).Nodup) := by
  have ht := buildPos_pairwise stop Product.title products (fun _ _ => [])
    (fun _ _ => List.Pairwise.nil) (fun _ _ _ => rfl) hnodup t d
  have hd := buildPos_pairwise stop Product.description products (fun _ _ => [])
    (fun _ _ => List.Pairwise.nil) (fun _ _ _ => rfl) hnodup t d
  exact ⟨⟨ht, ht.imp (fun h => ne_of_lt h)⟩, ⟨hd, hd.imp (fun h => ne_of_lt h)⟩⟩

/-- Witness for `positional_index_positions_sorted_nodup` at a concrete
product list. -/
theorem positional_index_positions_sorted_nodup_witness :
    ((build_title_positional_index []
        [{ id := "d", title := "a b a", description := "", product_features := [],
           product_rewiews := [] }] "a" "d").Sorted (· < ·) ∧
      (build_title_positional_index []
        [{ id := "d", title := "a b a", description := "", product_features := [],
           product_rewiews := [] }] "a" "d").Nodup) ∧
    ((build_desc_positional_index []
        [{ id := "d", title := "a b a", description := "", product_features := [],
           product_rewiews := [] }] "a" "d").Sorted (· < ·) ∧
      (build_desc_positional_index []
        [{ id := "d", title := "a b a", description := "", product_features := [],
           product_rewiews := [] }] "a" "d").Nodup) :=
  positional_index_positions_sorted_nodup []
    [{ id := "d", title := "a b a", description := "", product_features := [],
       product_rewiews := [] }] (by simp) "a" "d"

/-! ## Claim C7 -/

/-- The review that a stable ascending sort by date puts last: the **last**
review, in original order, whose date is maximal.  This is the spec's
"reviews sorted ascending by date; ties broken by original order". -/
def specLastReview (reviews : List Review) : Option Review :=
  reviews.reverse.find?
    (fun r => reviews.all (fun r' => decide (dateKey r' ≤ dateKey r)))

/-- The record the claim prescribes for one document's review list. -/
def specReviewRecord (reviews : List Review) : List (String × RVal) :=
  match reviews with
  | [] => [("total_reviews", .num 0), ("average_rating", .null), ("last_rating", .null)]
  | _ :: _ =>
    [("total_reviews", .num (reviews.length : ℚ)),
     ("average_rating",
       .num ((reviews.map (fun r => r.rating.getD 0)).sum / (reviews.length : ℚ))),
     ("last_rating",
       match specLastReview reviews with
       | some r => match r.rating with | some q => RVal.num q | none => RVal.null
       | none => RVal.null)]

theorem find?_congr' {α : Type} (p q : α → Bool) :
    ∀ l : List α, (∀ x ∈ l, p x = q x) → l.find? p = l.find? q := by
  intro l
  induction l with
  | nil => intro _; rfl
  | cons a l ih =>
    intro h
    simp only [List.find?_cons]
    rw [h a (List.mem_cons_self _ _)]
    cases hqa : q a with
    | true => rfl
    | false => exact ih (fun x hx => h x (List.mem_cons_of_mem _ hx))

theorem exists_max_dateKey :
    ∀ (l : List Review), l ≠ [] → ∃ r ∈ l, ∀ r' ∈ l, dateKey r' ≤ dateKey r := by
  intro l
  induction l with
  | nil => intro h; exact absurd rfl h
  | cons a l ih =>
    intro _
    cases l with
    | nil =>
      refine ⟨a, List.mem_cons_self _ _, ?_⟩
      intro r' hr'
      rw [List.mem_singleton] at hr'
      rw [hr']
    | cons b l' =>
      obtain ⟨m, hm, hmax⟩ := ih (List.cons_ne_nil _ _)
      by_cases ham : dateKey a ≤ dateKey m
      · refine ⟨m, List.mem_cons_of_mem _ hm, ?_⟩
        intro r' hr'
        rcases List.mem_cons.mp hr' with rfl | hr'
        · exact ham
        · exact hmax r' hr'
      · refine ⟨a, List.mem_cons_self _ _, ?_⟩
        intro r' hr'
        rcases List.mem_cons.mp hr' with rfl | hr'
        · exact le_refl _
        · exact (hmax r' hr').trans (le_of_not_le ham)

theorem getLast?_cons_of_ne_nil {α : Type} (x : α) (l : List α) (h : l ≠ []) :
    (x :: l).getLast? = l.getLast? := by
  cases l with
  | nil => exact absurd rfl h
  | cons y l' => exact List.getLast?_cons_cons

theorem orderedInsert_ne_nil (a : Review) (l : List Review) :
    l.orderedInsert (fun r1 r2 => dateKey r1 ≤ dateKey r2) a ≠ [] := by
  intro hc
  have hlen := List.orderedInsert_length (r := fun r1 r2 => dateKey r1 ≤ dateKey r2) l a
  rw [hc] at hlen
  simp at hlen

theorem getLast?_orderedInsert (a : Review) :
    ∀ (s : List Review), s ≠ [] →
      (s.orderedInsert (fun r1 r2 => dateKey r1 ≤ dateKey r2) a).getLast? =
        if s.any (fun b => decide (dateKey a ≤ dateKey b)) then s.getLast? else some a := by
  intro s
  induction s with
  | nil => intro h; exact absurd rfl h
  | cons b t ih =>
    intro _
    by_cases hr : dateKey a ≤ dateKey b
    · rw [List.orderedInsert, if_pos hr]
      have hany : (b :: t).any (fun b' => decide (dateKey a ≤ dateKey b')) = true := by
        simp [List.any_cons, hr]
      rw [if_pos hany, List.getLast?_cons_cons]
    · rw [List.orderedInsert, if_neg hr]
      cases t with
      | nil => simp [List.orderedInsert, hr]
      | cons c t' =>
        rw [getLast?_cons_of_ne_nil b _ (orderedInsert_ne_nil a (c :: t'))]
        rw [ih (List.cons_ne_nil _ _)]
        simp [List.any_cons, hr, List.getLast?_cons_cons]

theorem specLastReview_cons_of_exists_ge (a : Review) (l : List Review) (hl : l ≠ [])
    (h : ∃ x ∈ l, dateKey a ≤ dateKey x) :
    specLastReview (a :: l) = specLastReview l := by
  unfold specLastReview
  rw [List.reverse_cons, List.find?_append]
  have hcongr : l.reverse.find?
        (fun r => (a :: l).all (fun r' => decide (dateKey r' ≤ dateKey r))) =
      l.reverse.find? (fun r => l.all (fun r' => decide (dateKey r' ≤ dateKey r))) := by
    apply find?_congr'
    intro x hx
    rw [List.mem_reverse] at hx
    rw [List.all_cons]
    cases hc : l.all (fun r' => decide (dateKey r' ≤ dateKey x)) with
    | true =>
      obtain ⟨b, hb, hab⟩ := h
      have hbx : dateKey b ≤ dateKey x := by
        have := List.all_eq_true.mp hc b hb
        simpa using this
      simp [hab.trans hbx]
    | false => simp
  rw [hcongr]
  have hsome : (l.reverse.find?
      (fun r => l.all (fun r' => decide (dateKey r' ≤ dateKey r)))).isSome := by
    obtain ⟨m, hm, hmax⟩ := exists_max_dateKey l hl
    apply List.find?_isSome.mpr
    refine ⟨m, List.mem_reverse.mpr hm, ?_⟩
    rw [List.all_eq_true]
    intro r' hr'
    simpa using hmax r' hr'
  obtain ⟨v, hv⟩ := Option.isSome_iff_exists.mp hsome
  rw [hv]
  rfl

theorem specLastReview_cons_of_forall_lt (a : Review) (l : List Review)
    (h : ∀ x ∈ l, ¬ dateKey a ≤ dateKey x) :
    specLastReview (a :: l) = some a := by
  unfold specLastReview
  rw [List.reverse_cons, List.find?_append]
  have hnone : l.reverse.find?
      (fun r => (a :: l).all (fun r' => decide (dateKey r' ≤ dateKey r))) = none := by
    rw [List.find?_eq_none]
    intro x hx
    rw [List.mem_reverse] at hx
    simp [List.all_cons, h x hx]
  rw [hnone]
  have hla : (l.all (fun r' => decide (dateKey r' ≤ dateKey a))) = true := by
    rw [List.all_eq_true]
    intro r' hr'
    simpa using le_of_lt (lt_of_not_le (h r' hr'))
  simp [List.find?_cons, List.all_cons, hla]

theorem getLast?_insertionSort :
    ∀ (reviews : List Review),
      (reviews.insertionSort (fun r1 r2 => dateKey r1 ≤ dateKey r2)).getLast? =
        specLastReview reviews := by
  intro reviews
  induction reviews with
  | nil => rfl
  | cons a l ih =>
    cases l with
    | nil =>
      simp only [List.insertionSort, List.orderedInsert]
      unfold specLastReview
      simp [List.find?_cons]
    | cons b l' =>
      rw [List.insertionSort]
      have hs_ne : (b :: l').insertionSort (fun r1 r2 => dateKey r1 ≤ dateKey r2) ≠ [] := by
        intro hc
        have hlen := (List.perm_insertionSort
          (fun r1 r2 => dateKey r1 ≤ dateKey r2) (b :: l')).length_eq
        rw [hc] at hlen
        simp at hlen
      rw [getLast?_orderedInsert a _ hs_ne]
      have hmem : ∀ x : Review,
          x ∈ (b :: l').insertionSort (fun r1 r2 => dateKey r1 ≤ dateKey r2) ↔
            x ∈ b :: l' :=
        fun x => (List.perm_insertionSort _ _).mem_iff
      by_cases hany : ∃ x ∈ b :: l', dateKey a ≤ dateKey x
      · have hany' : ((b :: l').insertionSort
            (fun r1 r2 => dateKey r1 ≤ dateKey r2)).any
              (fun x => decide (dateKey a ≤ dateKey x)) = true := by
          rw [List.any_eq_true]
          obtain ⟨x, hx, hax⟩ := hany
          exact ⟨x, (hmem x).mpr hx, by simpa using hax⟩
        rw [if_pos hany', ih]
        exact (specLastReview_cons_of_exists_ge a (b :: l') (List.cons_ne_nil _ _) hany).symm
      · have hany' : ((b :: l').insertionSort
            (fun r1 r2 => dateKey r1 ≤ dateKey r2)).any
              (fun x => decide (dateKey a ≤ dateKey x)) = false := by
          rw [List.any_eq_false]
          intro x hx
          rw [hmem x] at hx
          simp only [decide_eq_true_eq]
          exact fun hc => hany ⟨x, hx, hc⟩
        simp only [hany', Bool.false_eq_true, if_false]
        push_neg at hany
        exact (specLastReview_cons_of_forall_lt a (b :: l')
          (fun x hx hc => (not_le_of_lt (hany x hx)) hc)).symm

theorem reviewStats_ok_spec (reviews : List Review) (rec : List (String × RVal))
    (h : reviewStats reviews = .ok rec) : rec = specReviewRecord reviews := by
  cases hrev : reviews with
  | nil =>
    rw [hrev] at h
    simp only [reviewStats] at h
    cases h
    rfl
  | cons a l =>
    rw [hrev] at h
    simp only [reviewStats] at h
    by_cases hall : (a :: l).all (fun r => (parseDate r.date).isSome)
    · rw [if_pos hall] at h
      cases h
      have hlast := getLast?_insertionSort (a :: l)
      simp only [specReviewRecord]
      have hne : ((a :: l).insertionSort (fun r1 r2 => dateKey r1 ≤ dateKey r2)) ≠ [] := by
        intro hc
        have hlen := (List.perm_insertionSort
          (fun r1 r2 => dateKey r1 ≤ dateKey r2) (a :: l)).length_eq
        rw [hc] at hlen
        simp at hlen
      cases hsl : specLastReview (a :: l) with
      | some r => rw [hsl] at hlast; rw [hlast]; rfl
      | none =>
        rw [hsl] at hlast
        cases hgl : ((a :: l).insertionSort
            (fun r1 r2 => dateKey r1 ≤ dateKey r2)).getLast? with
        | some r => rw [hgl] at hlast; cases hlast
        | none =>
          exact absurd (List.getLast?_eq_none_iff.mp hgl) hne
    · rw [if_neg hall] at h
      cases h

theorem build_reviews_index_mem :
    ∀ (products : List Product) (idx : RevIndex),
      build_reviews_index products = .ok idx →
      ∀ d rec, (d, rec) ∈ idx →
        ∃ p ∈ products, d = p.id ∧ reviewStats p.product_rewiews = .ok rec := by
  intro products
  induction products with
  | nil =>
    intro idx h d rec hmem
    simp only [build_reviews_index] at h
    cases h
    exact absurd hmem (List.not_mem_nil _)
  | cons q rest ih =>
    intro idx h d rec hmem
    simp only [build_reviews_index] at h
    cases hst : reviewStats q.product_rewiews with
    | error e => rw [hst] at h; cases h
    | ok st =>
      rw [hst] at h
      cases hrest : build_reviews_index rest with
      | error e => rw [hrest] at h; cases h
      | ok idx' =>
        rw [hrest] at h
        cases h
        rcases List.mem_cons.mp hmem with heq | hmem'
        · cases heq
          exact ⟨q, List.mem_cons_self _ _, rfl, hst⟩
        · obtain ⟨p, hp, hdp, hrs⟩ := ih idx' hrest d rec hmem'
          exact ⟨p, List.mem_cons_of_mem _ hp, hdp, hrs⟩

theorem build_reviews_index_lookup :
    ∀ (products : List Product) (idx : RevIndex),
      build_reviews_index products = .ok idx →
      (products.map Product.id).Nodup →
      ∀ p ∈ products, alookup p.id idx = some (specReviewRecord p.product_rewiews) := by
  intro products
  induction products with
  | nil => intro idx _ _ p hp; exact absurd hp (List.not_mem_nil _)
  | cons q rest ih =>
    intro idx h hnodup p hp
    simp only [build_reviews_index] at h
    cases hst : reviewStats q.product_rewiews with
    | error e => rw [hst] at h; cases h
    | ok st =>
      rw [hst] at h
      cases hrest : build_reviews_index rest with
      | error e => rw [hrest] at h; cases h
      | ok idx' =>
        rw [hrest] at h
        cases h
        rw [List.map_cons, List.nodup_cons] at hnodup
        obtain ⟨hqid, hnodup'⟩ := hnodup
        rcases List.mem_cons.mp hp with rfl | hp'
        · rw [alookup_cons, if_pos rfl, reviewStats_ok_spec _ _ hst]
        · have hne : p.id ≠ q.id := by
            intro hc
            exact hqid (hc ▸ List.mem_map_of_mem Product.id hp')
          rw [alookup_cons, if_neg hne]
          exact ih idx' hrest hnodup' p hp'

/-- C7: `build_reviews_index` maps a document with no reviews to
`{total_reviews: 0, average_rating: null, last_rating: null}`, and a
document with reviews to the review count, the mean rating (missing rating
= 0), and the rating of the last review after a stable ascending sort by
the parsed `YYYY-MM-DD` date, ties broken by original order (i.e. the last
review in original order whose date is maximal). -/
theorem build_reviews_index_per_document (products : List Product) (idx : RevIndex)
    (hok : build_reviews_index products = .ok idx)
    (hnodup : (products.map Product.id).Nodup) (p : Product) (hp : p ∈ products) :
    alookup p.id idx = some (specReviewRecord p.product_rewiews) :=
  build_reviews_index_lookup products idx hok hnodup p hp

/-- Witness for `build_reviews_index_per_document` at a concrete product
list. -/
theorem build_reviews_index_per_document_witness :
    alookup "d"
        [("d", [("total_reviews", RVal.num 0), ("average_rating", RVal.null),
                ("last_rating", RVal.null)])] =
      some (specReviewRecord []) :=
  build_reviews_index_per_document
    [{ id := "d", title := "", description := "", product_features := [],
       product_rewiews := [] }]
    [("d", [("total_reviews", RVal.num 0), ("average_rating", RVal.null),
            ("last_rating", RVal.null)])]
    rfl (by simp)
    { id := "d", title := "", description := "", product_features := [],
      product_rewiews := [] }
    (List.mem_cons_self _ _)

/-! ## Claim C10 -/

theorem alookup_some_mem {β : Type} :
    ∀ (l : List (String × β)) (k : String) (v : β),
      alookup k l = some v → (k, v) ∈ l := by
  intro l
  induction l with
  | nil => intro k v h; cases h
  | cons kv rest ih =>
    intro k v h
    obtain ⟨k', v'⟩ := kv
    rw [alookup_cons] at h
    by_cases hk : k = k'
    · rw [if_pos hk] at h
      cases h
      rw [hk]
      exact List.mem_cons_self _ _
    · rw [if_neg hk] at h
      exact List.mem_cons_of_mem _ (ih k v h)

theorem specReviewRecord_keys (reviews : List Review) :
    (specReviewRecord reviews).map Prod.fst =
        ["total_reviews", "average_rating", "last_rating"] ∧
      alookup "mean_mark" (specReviewRecord reviews) = none := by
  cases reviews <;> exact ⟨rfl, rfl⟩

theorem get_token_synonyms_ok (st : SearchEngine) (token : String)
    (syn : List (String × List String)) (hsyn : st.origin_synonyms = some syn) :
    ∃ ts, get_token_synonyms st token = .ok ts := by
  cases h1 : alookup (pyLower token) syn with
  | some syns =>
    refine ⟨pySet (pyLower token :: syns.map pyLower), ?_⟩
    unfold get_token_synonyms
    rw [hsyn]
    simp only [h1]
  | none =>
    cases h2 : syn.find? (fun g => decide (pyLower token ∈ g.2)) with
    | some g =>
      refine ⟨pySet ((pyLower token :: g.2) ++ [g.1]), ?_⟩
      unfold get_token_synonyms
      rw [hsyn]
      simp only [h1, h2]
    | none =>
      refine ⟨pySet [pyLower token], ?_⟩
      unfold get_token_synonyms
      rw [hsyn]
      simp only [h1, h2]

theorem except_ok_bind {ε α β : Type} (a : α) (f : α → Except ε β) :
    (Except.ok a >>= f) = f a := rfl

theorem except_error_bind {ε α β : Type} (e : ε) (f : α → Except ε β) :
    ((Except.error e : Except ε α) >>= f) = Except.error e := rfl

theorem get_query_tokens_with_synonyms_ok (st : SearchEngine) (query : String)
    (syn : List (String × List String)) (hsyn : st.origin_synonyms = some syn) :
    ∃ qts, get_query_tokens_with_synonyms st query = .ok qts := by
  unfold get_query_tokens_with_synonyms
  generalize tokenize st.indexer_STOPWORDS query = toks
  suffices h : ∀ (toks : List String) (acc : List String),
      ∃ qts, toks.foldlM
        (fun acc t => do
          let s ← get_token_synonyms st t
          pure (acc ++ s)) acc = .ok qts from h toks []
  intro toks
  induction toks with
  | nil => intro acc; exact ⟨acc, rfl⟩
  | cons t ts ih =>
    intro acc
    obtain ⟨s, hs⟩ := get_token_synonyms_ok st t syn hsyn
    obtain ⟨qts, hq⟩ := ih (acc ++ s)
    refine ⟨qts, ?_⟩
    rw [List.foldlM_cons, hs, except_ok_bind]
    exact hq

theorem matchCount_some_ok (l : PosIndex) (doc_id : String) :
    ∀ (ts : List String) (n : Nat), ∃ m, matchCount (some l) doc_id ts n = .ok m := by
  intro ts
  induction ts with
  | nil => intro n; exact ⟨n, rfl⟩
  | cons t ts ih =>
    intro n
    simp only [matchCount]
    exact ih _

/-- C10: every record of `build_reviews_index` has exactly the keys
`total_reviews`, `average_rating` and `last_rating` (no `mean_mark`), so
`get_custom_score`, which reads `review_data["mean_mark"]`, raises
`KeyError` against any reviews index the builder produced (for documents
absent from the index, the initial `reviews_index[doc_id]` access itself
raises `KeyError`). -/
theorem build_reviews_index_breaks_custom_score :
    (∀ (products : List Product) (idx : RevIndex),
      build_reviews_index products = .ok idx →
      ∀ (d : String) (rec : List (String × RVal)), (d, rec) ∈ idx →
        rec.map Prod.fst = ["total_reviews", "average_rating", "last_rating"] ∧
        alookup "mean_mark" rec = none) ∧
    (∀ (log : ℚ → ℚ) (st : SearchEngine) (query doc_id : String)
        (products : List Product) (idx : RevIndex) (ti di : PosIndex)
        (syn : List (String × List String)),
      build_reviews_index products = .ok idx →
      st.reviews_index = some idx → st.title_index = some ti →
      st.description_index = some di → st.origin_synonyms = some syn →
      get_custom_score log st query doc_id = .error "KeyError") := by
  have hrec : ∀ (products : List Product) (idx : RevIndex),
      build_reviews_index products = .ok idx →
      ∀ (d : String) (rec : List (String × RVal)), (d, rec) ∈ idx →
        rec.map Prod.fst = ["total_reviews", "average_rating", "last_rating"] ∧
        alookup "mean_mark" rec = none := by
    intro products idx hok d rec hmem
    obtain ⟨p, _, _, hrs⟩ := build_reviews_index_mem products idx hok d rec hmem
    rw [reviewStats_ok_spec _ _ hrs]
    exact specReviewRecord_keys p.product_rewiews
  refine ⟨hrec, ?_⟩
  intro log st query doc_id products idx ti di syn hbuild hrev hti hdi hsyn
  obtain ⟨qts, hq⟩ := get_query_tokens_with_synonyms_ok st query syn hsyn
  obtain ⟨tm, htm⟩ := matchCount_some_ok ti doc_id qts 0
  obtain ⟨dm, hdm⟩ := matchCount_some_ok di doc_id qts 0
  rw [get_custom_score]
  simp only [hq, hti, hdi, hrev, htm, hdm]
  cases hlook : alookup doc_id idx with
  | none => rfl
  | some rec =>
    have hmm : alookup "mean_mark" rec = none :=
      (hrec products idx hbuild doc_id rec (alookup_some_mem idx doc_id rec hlook)).2
    simp only [recNum, hmm]

/-- Witness fixtures for the C10 theorem. -/
def builtReviewsIdx : RevIndex :=
  [("d", [("total_reviews", RVal.num 0), ("average_rating", RVal.null),
          ("last_rating", RVal.null)])]

/-- A working engine whose reviews index is exactly a builder output. -/
def builtReviewsEngine : SearchEngine :=
  { noIndexEngine with
    title_index := some [],
    description_index := some [],
    reviews_index := some builtReviewsIdx,
    origin_synonyms := some [] }

/-- Witness for `build_reviews_index_breaks_custom_score` at a concrete
state. -/
theorem build_reviews_index_breaks_custom_score_witness :
    get_custom_score (fun _ => 0) builtReviewsEngine "x" "d" = .error "KeyError" :=
  build_reviews_index_breaks_custom_score.2 (fun _ => 0) builtReviewsEngine "x" "d"
    [{ id := "d", title := "", description := "", product_features := [],
       product_rewiews := [] }]
    builtReviewsIdx [] [] [] rfl rfl rfl rfl rfl

/-! ## Claim C1 -/

theorem alookup_append {β : Type} (k : String) :
    ∀ (l1 l2 : List (String × β)),
      alookup k (l1 ++ l2) =
        match alookup k l1 with
        | some v => some v
        | none => alookup k l2 := by
  intro l1 l2
  induction l1 with
  | nil => rfl
  | cons kv rest ih =>
    obtain ⟨k', v'⟩ := kv
    rw [List.cons_append, alookup_cons, alookup_cons]
    by_cases hk : k = k'
    · rw [if_pos hk, if_pos hk]
    · rw [if_neg hk, if_neg hk, ih]

theorem rankAux_cons_ok (log : ℚ → ℚ) (st : SearchEngine) (qts : List String)
    (query doc : String) (rest : List String) (acc : List (String × ℚ))
    (s : List (String × ℚ))
    (h : rankAux log st qts query (doc :: rest) acc = .ok s) :
    ∃ product t de o br dm c,
      get_product_by_id st doc = .ok product ∧
      compute_bm25 log st qts product "title" (3 / 2) (3 / 4) = .ok t ∧
      compute_bm25 log st qts product "description" (3 / 2) (3 / 4) = .ok de ∧
      compute_bm25 log st qts product "origin" (3 / 2) (3 / 4) = .ok o ∧
      compute_bm25 log st qts product "brand" (3 / 2) (3 / 4) = .ok br ∧
      compute_bm25 log st qts product "domain" (3 / 2) (3 / 4) = .ok dm ∧
      get_custom_score log st query doc = .ok c ∧
      rankAux log st qts query rest
        (acc ++ [(doc, t + de + o + br + dm + log (max (1 / 10) c))]) = .ok s := by
  simp only [rankAux] at h
  cases h1 : get_product_by_id st doc with
  | error e => simp only [h1] at h; cases h
  | ok product =>
  simp only [h1] at h
  cases h2 : compute_bm25 log st qts product "title" (3 / 2) (3 / 4) with
  | error e => simp only [h2] at h; cases h
  | ok t =>
  simp only [h2] at h
  cases h3 : compute_bm25 log st qts product "description" (3 / 2) (3 / 4) with
  | error e => simp only [h3] at h; cases h
  | ok de =>
  simp only [h3] at h
  cases h4 : compute_bm25 log st qts product "origin" (3 / 2) (3 / 4) with
  | error e => simp only [h4] at h; cases h
  | ok o =>
  simp only [h4] at h
  cases h5 : compute_bm25 log st qts product "brand" (3 / 2) (3 / 4) with
  | error e => simp only [h5] at h; cases h
  | ok br =>
  simp only [h5] at h
  cases h6 : compute_bm25 log st qts product "domain" (3 / 2) (3 / 4) with
  | error e => simp only [h6] at h; cases h
  | ok dm =>
  simp only [h6] at h
  cases h7 : get_custom_score log st query doc with
  | error e => simp only [h7] at h; cases h
  | ok c =>
  simp only [h7] at h
  exact ⟨product, t, de, o, br, dm, c, rfl, h2, h3, h4, h5, h6, rfl, h⟩

theorem rankAux_prefix (log : ℚ → ℚ) (st : SearchEngine) (qts : List String)
    (query : String) :
    ∀ (docs : List String) (acc s : List (String × ℚ)),
      rankAux log st qts query docs acc = .ok s → ∃ tail, s = acc ++ tail := by
  intro docs
  induction docs with
  | nil =>
    intro acc s h
    simp only [rankAux] at h
    cases h
    exact ⟨[], by simp⟩
  | cons doc rest ih =>
    intro acc s h
    obtain ⟨product, t, de, o, br, dm, c, _, _, _, _, _, _, _, hrest⟩ :=
      rankAux_cons_ok log st qts query doc rest acc s h
    obtain ⟨tail, htail⟩ := ih _ _ hrest
    exact ⟨(doc, t + de + o + br + dm + log (max (1 / 10) c)) :: tail,
      by rw [htail, List.append_assoc]; rfl⟩

theorem rankAux_lookup (log : ℚ → ℚ) (st : SearchEngine) (qts : List String)
    (query : String) :
    ∀ (docs : List String) (acc s : List (String × ℚ)) (d : String),
      rankAux log st qts query docs acc = .ok s → d ∈ docs → docs.Nodup →
      alookup d acc = none →
      ∃ product t de o br dm c,
        get_product_by_id st d = .ok product ∧
        compute_bm25 log st qts product "title" (3 / 2) (3 / 4) = .ok t ∧
        compute_bm25 log st qts product "description" (3 / 2) (3 / 4) = .ok de ∧
        compute_bm25 log st qts product "origin" (3 / 2) (3 / 4) = .ok o ∧
        compute_bm25 log st qts product "brand" (3 / 2) (3 / 4) = .ok br ∧
        compute_bm25 log st qts product "domain" (3 / 2) (3 / 4) = .ok dm ∧
        get_custom_score log st query d = .ok c ∧
        alookup d s = some (t + de + o + br + dm + log (max (1 / 10) c)) := by
  intro docs
  induction docs with
  | nil => intro _ _ _ _ hd; exact absurd hd (List.not_mem_nil _)
  | cons doc rest ih =>
    intro acc s d h hd hnodup hacc
    obtain ⟨product, t, de, o, br, dm, c, h1, h2, h3, h4, h5, h6, h7, hrest⟩ :=
      rankAux_cons_ok log st qts query doc rest acc s h
    rw [List.nodup_cons] at hnodup
    obtain ⟨hdocnotin, hnodup'⟩ := hnodup
    rcases List.mem_cons.mp hd with rfl | hd'
    · obtain ⟨tail, htail⟩ := rankAux_prefix log st qts query rest _ s hrest
      refine ⟨product, t, de, o, br, dm, c, h1, h2, h3, h4, h5, h6, h7, ?_⟩
      rw [htail, List.append_assoc, alookup_append, hacc, List.singleton_append,
        alookup_cons, if_pos rfl]
    · have hacc' : alookup d
          (acc ++ [(doc, t + de + o + br + dm + log (max (1 / 10) c))]) = none := by
        rw [alookup_append, hacc, alookup_cons,
          if_neg (fun hc : d = doc => hdocnotin (hc ▸ hd'))]
        rfl
      exact ih _ _ _ hrest hd' hnodup' hacc'

/-- C1: for every candidate document id in a successful `rank_docs` call,
the returned mapping assigns the score `bm25_composite + log(max(0.1,
custom_score))`, where `bm25_composite` is the sum of `compute_bm25` over
the five fields title, description, origin, brand and domain (with the
default `k1 = 1.5`, `b = 0.75`) and `custom_score` is `get_custom_score`
for that document. -/
theorem rank_docs_assigns_formula (log : ℚ → ℚ) (st : SearchEngine) (query : String)
    (docs : List String) (scores : List (String × ℚ)) (d : String)
    (hok : rank_docs log st query docs = .ok scores) (hnodup : docs.Nodup)
    (hd : d ∈ docs) :
    ∃ qts product t de o br dm c,
      get_query_tokens_with_synonyms st query = .ok qts ∧
      get_product_by_id st d = .ok product ∧
      compute_bm25 log st qts product "title" (3 / 2) (3 / 4) = .ok t ∧
      compute_bm25 log st qts product "description" (3 / 2) (3 / 4) = .ok de ∧
      compute_bm25 log st qts product "origin" (3 / 2) (3 / 4) = .ok o ∧
      compute_bm25 log st qts product "brand" (3 / 2) (3 / 4) = .ok br ∧
      compute_bm25 log st qts product "domain" (3 / 2) (3 / 4) = .ok dm ∧
      get_custom_score log st query d = .ok c ∧
      alookup d scores = some (t + de + o + br + dm + log (max (1 / 10) c)) := by
  rw [rank_docs] at hok
  cases hq : get_query_tokens_with_synonyms st query with
  | error e => rw [hq] at hok; cases hok
  | ok qts =>
    rw [hq] at hok
    obtain ⟨product, t, de, o, br, dm, c, h1, h2, h3, h4, h5, h6, h7, h8⟩ :=
      rankAux_lookup log st qts query docs [] scores d hok hd hnodup rfl
    exact ⟨qts, product, t, de, o, br, dm, c, rfl, h1, h2, h3, h4, h5, h6, h7, h8⟩

/-- A minimal fully-working engine: one product, all indexes present, a
reviews record with the keys `get_custom_score` actually reads. -/
def workingEngine : SearchEngine :=
  { STOPWORDS := [], indexer_STOPWORDS := [],
    products_list := [{ id := "d", title := "", description := "",
                        product_features := [], product_rewiews := [] }],
    title_index := some [], description_index := some [], origin_index := some [],
    reviews_index := some [("d", [("mean_mark", RVal.num 4),
                                  ("total_reviews", RVal.num 0)])],
    brand_index := some [], domain_index := some [], origin_synonyms := some [] }

/-- Witness for `rank_docs_assigns_formula` at a concrete state. -/
theorem rank_docs_assigns_formula_witness :
    ∃ qts product t de o br dm c,
      get_query_tokens_with_synonyms workingEngine "" = .ok qts ∧
      get_product_by_id workingEngine "d" = .ok product ∧
      compute_bm25 (fun _ => 0) workingEngine qts product "title" (3 / 2) (3 / 4) = .ok t ∧
      compute_bm25 (fun _ => 0) workingEngine qts product "description" (3 / 2) (3 / 4) =
        .ok de ∧
      compute_bm25 (fun _ => 0) workingEngine qts product "origin" (3 / 2) (3 / 4) = .ok o ∧
      compute_bm25 (fun _ => 0) workingEngine qts product "brand" (3 / 2) (3 / 4) = .ok br ∧
      compute_bm25 (fun _ => 0) workingEngine qts product "domain" (3 / 2) (3 / 4) = .ok dm ∧
      get_custom_score (fun _ => 0) workingEngine "" "d" = .ok c ∧
      alookup "d" [("d", (0 : ℚ))] =
        some (t + de + o + br + dm + (fun _ : ℚ => (0 : ℚ)) (max (1 / 10) c)) :=
  rank_docs_assigns_formula (fun _ => 0) workingEngine "" ["d"] [("d", 0)] "d"
    (by
      have h0 : rank_docs (fun _ : ℚ => (0 : ℚ)) workingEngine "" ["d"] =
          .ok [("d", (0 : ℚ) + 0 + 0 + 0 + 0 + 0)] := rfl
      rw [h0]
      norm_num)
    (by simp) (by simp)

end Tp1
